import Mathlib

/-!
Verification development for the sty small-object pool allocator
(`src/core/sty_memory.h`, `src/core/sty_mempool.c` and the consolidated
revision in `src/unnamed/part_000`).

Shallow embedding conventions:
- C `int` values are modelled as `Int` (all quantities reached by the
  theorems below stay far inside 32-bit range, so wrap-around never fires).
- Pointers are modelled as integer addresses, with `0` playing the role of
  `NULL`.  `union sty_memblk` has its `client_data` array at offset 0, so the
  decay of `block->client_data` is the address of the block itself; the only
  memory cell the allocator ever reads or writes inside a block is the
  `next` link word, modelled by the `Heap` map from block address to stored
  link.
- `malloc` is modelled by an oracle: a list of upcoming return values
  (0 meaning `NULL`; an exhausted oracle also answers `NULL`).  Every request
  is recorded in a trace of requested byte counts, so "exactly one system
  request of N bytes" is a statement about the trace.
- `assert` (active in debug builds) is modelled as a distinguished stopping
  outcome carrying the assertion site; `exit(status)` is a stopping outcome
  carrying the status and the final state of the global pool.
- `sty_mempool_chunk_alloc_and_fill` is self-recursive in C; the embedding
  adds a fuel parameter for totality.  The development proves that fuel 2
  is always enough on the calls the program performs (the recursion depth
  bound of the specification).
-/

/-- the ALIGN grid quantum of the source (8 bytes). -/
def ALIGN : Int := 8

/-- the MAX_BYTES threshold of the source: largest pool-served request. -/
def MAX_BYTES : Int := 128

/-- number of segregated free lists, MAX_BYTES / ALIGN = 16. -/
def FREELISTS : Int := 16

/-- the DEFAULT_REFILL_BLOCKS batch size used by refill. -/
def DEFAULT_REFILL_BLOCKS : Int := 20

/-- the STY_ALLOC_OOM exit status (-1 in `sty_memory.h`). -/
def STY_ALLOC_OOM : Int := -1

/-- the heap of next-link words: maps a block address to the link stored in
its first word.  Only free blocks have a meaningful link. -/
abbrev Heap := Int → Int

/-- model of `struct sty_mempool`.  `free_lists` is kept as a total map from
`Int` indices because the C array accesses are guarded by assertions, which
the embedding checks separately. -/
structure MemPool where
  total_used : Int
  available : Int
  pool_start : Int
  pool_end : Int
  free_lists : Int → Int

/-- a complete machine state: the global pool `sty_global_mempool`, the heap
of link words, the malloc oracle (upcoming return values) and the trace of
byte counts requested from the system allocator so far. -/
structure World where
  pool : MemPool
  heap : Heap
  oracle : List Int
  calls : List Int

/-- outcome of running a piece of the allocator: a value, a tripped
`assert` (tagged with its site), a process exit with a status and the final
state, or exhaustion of the recursion fuel (never reached on real calls). -/
inductive CResult (α : Type) where
  | ok : α → CResult α
  | assertViolation : String → CResult α
  | exited : Int → World → CResult α
  | outOfFuel : CResult α

/-- sequencing of partial computations; stopping outcomes propagate. -/
def CResult.bind {α β : Type} : CResult α → (α → CResult β) → CResult β
  | .ok a, f => f a
  | .assertViolation t, _ => .assertViolation t
  | .exited s w, _ => .exited s w
  | .outOfFuel, _ => .outOfFuel

/-- model of `sty_mempool_bytes_round_up`: the C source computes
`(bytes + ALIGN - 1) & ~(ALIGN - 1)`, which on two-complement integers
clears the low three bits, i.e. subtracts the Euclidean remainder mod 8. -/
def sty_mempool_bytes_round_up (bytes : Int) : Int :=
  (bytes + ALIGN - 1) - (bytes + ALIGN - 1) % ALIGN

/-- model of `sty_mempool_freelist_index`:
`(bytes + ALIGN - 1) / ALIGN - 1` with C truncating division. -/
def sty_mempool_freelist_index (bytes : Int) : Int :=
  (bytes + ALIGN - 1).tdiv ALIGN - 1

/-- model of `sty_mempool_freelist_addblock`: push `block` on free list
`index`.  The C asserts (non-null pool, non-null block, index in range) are
checked in source order; the push writes the old head into the link word of
`block` and installs `block` as the new head. -/
def sty_mempool_freelist_addblock (pool : MemPool) (heap : Heap)
    (index block : Int) : CResult (MemPool × Heap) :=
  if block = 0 then .assertViolation "addblock block nonnull"
  else if 0 ≤ index ∧ index < FREELISTS then
    .ok ({ pool with free_lists := Function.update pool.free_lists index block },
         Function.update heap block (pool.free_lists index))
  else .assertViolation "addblock index range"

/-- model of `sty_mempool_freelist_popblock` (part_000 revision): read the
head of list `index`; when non-null, advance the list to the stored link.
The returned value is `block->client_data`, which is the address of the
block itself (the `client_data` member sits at offset 0), hence `0` when the
list was empty.  The heap is never written and is read only when the head is
non-null. -/
def sty_mempool_freelist_popblock (pool : MemPool) (heap : Heap)
    (index : Int) : CResult (Int × MemPool) :=
  if 0 ≤ index ∧ index < FREELISTS then
    let block := pool.free_lists index
    if block ≠ 0 then
      .ok (block, { pool with
        free_lists := Function.update pool.free_lists index (heap block) })
    else
      .ok (block, pool)
  else .assertViolation "popblock index range"

/-- link words written by the loop of `sty_mempool_freelist_build`: block
`k` (for `k < n-1`) points to block `k+1`, the last block points to null.
The recursion mirrors the C loop one write at a time. -/
def sty_buildLinks (heap : Heap) (blk size : Int) : Nat → Heap
  | 0 => heap
  | 1 => Function.update heap blk 0
  | Nat.succ (Nat.succ k) =>
      sty_buildLinks (Function.update heap blk (blk + size)) (blk + size) size
        (Nat.succ k)

/-- model of `sty_mempool_freelist_build`: thread `nblocks` contiguous
blocks of `size` bytes starting at `blocks` onto the free list of class
`freelist_index(size)` (head first, chain built by `sty_buildLinks`). -/
def sty_mempool_freelist_build (pool : MemPool) (heap : Heap)
    (size blocks nblocks : Int) : CResult (MemPool × Heap) :=
  if size.tmod ALIGN = 0 then
    if 0 < nblocks then
      let selected := sty_mempool_freelist_index size
      .ok ({ pool with
              free_lists := Function.update pool.free_lists selected blocks },
           sty_buildLinks heap blocks size nblocks.toNat)
    else .assertViolation "build nblocks positive"
  else .assertViolation "build size alignment"

/-- model of one `malloc(bytes)` call: consume the next oracle answer (an
empty oracle answers NULL) and record the requested byte count. -/
def mallocModel (w : World) (bytes : Int) : Int × World :=
  match w.oracle with
  | [] => (0, { w with calls := w.calls ++ [bytes] })
  | r :: rest => (r, { w with oracle := rest, calls := w.calls ++ [bytes] })

/-- model of the salvage-failure loop of `sty_mempool_chunk_alloc_and_fill`:
`for (i = size; i <= MAX_BYTES; i += ALIGN)` pop one block from the class of
`i`; on the first non-null block install it as the entire reserve.  The Nat
argument is the remaining iteration budget; the caller passes the exact
iteration count of the C loop and the `i ≤ MAX_BYTES` test is also kept
inside, so the model and the loop agree for every starting point. -/
def sty_recycle (w : World) : Nat → Int → CResult (Option World)
  | 0, _ => .ok none
  | Nat.succ k, i =>
    if i ≤ MAX_BYTES then
      (sty_mempool_freelist_popblock w.pool w.heap
          (sty_mempool_freelist_index i)).bind fun rp =>
        if rp.1 ≠ 0 then
          .ok (some { w with pool :=
            { rp.2 with pool_start := rp.1, pool_end := rp.1 + i } })
        else
          sty_recycle { w with pool := rp.2 } k (i + ALIGN)
    else .ok none

/-- model of `sty_mempool_chunk_alloc_and_fill`.  The first argument is
recursion fuel (the C function is self-recursive); everything else follows
the source line by line: the three-way comparison of the remaining reserve
against the request, the leftover salvage, the single system request of
`2 * total_size + round_up(total_used >> 4)` bytes (the shift is arithmetic,
i.e. floor division by 16), the recycle walk on system failure, and the
`exit(STY_ALLOC_OOM)` after `pool_end = NULL` when everything failed. -/
def sty_mempool_chunk_alloc_and_fill :
    Nat → World → Int → Int → CResult (Int × Int × World)
  | 0, _, _, _ => .outOfFuel
  | Nat.succ fuel, w, size, nblocks =>
    if size.tmod ALIGN = 0 then
      let total_size := size * nblocks
      let bytes_left := w.pool.pool_end - w.pool.pool_start
      if total_size ≤ bytes_left then
        .ok (w.pool.pool_start, nblocks,
          { w with pool :=
            { w.pool with pool_start := w.pool.pool_start + total_size } })
      else if size ≤ bytes_left then
        let nblocks2 := bytes_left.tdiv size
        let total2 := size * nblocks2
        .ok (w.pool.pool_start, nblocks2,
          { w with pool :=
            { w.pool with pool_start := w.pool.pool_start + total2 } })
      else
        (if 0 < bytes_left then
          (sty_mempool_freelist_addblock w.pool w.heap
              (sty_mempool_freelist_index bytes_left) w.pool.pool_start).bind
            fun ph => .ok { w with pool := ph.1, heap := ph.2 }
        else .ok w).bind fun w1 =>
          let bytes_to_alloc :=
            2 * total_size +
              sty_mempool_bytes_round_up (w1.pool.total_used.fdiv 16)
          let rw := mallocModel w1 bytes_to_alloc
          let w3 := { rw.2 with pool := { rw.2.pool with pool_start := rw.1 } }
          if rw.1 = 0 then
            (sty_recycle w3 ((MAX_BYTES - size).fdiv ALIGN + 1).toNat
                size).bind fun res =>
              match res with
              | some w4 => sty_mempool_chunk_alloc_and_fill fuel w4 size nblocks
              | none =>
                .exited STY_ALLOC_OOM
                  { w3 with pool := { w3.pool with pool_end := 0 } }
          else
            let w4 := { w3 with pool := { w3.pool with
                total_used := w3.pool.total_used + bytes_to_alloc,
                pool_end := rw.1 + bytes_to_alloc } }
            sty_mempool_chunk_alloc_and_fill fuel w4 size nblocks
    else .assertViolation "chunk size alignment"

/-- model of `sty_mempool_refill`: ask the chunk allocator for a batch of
`DEFAULT_REFILL_BLOCKS` blocks, return the first block, and when more than
one block was produced thread the surplus onto the free list of the class. -/
def sty_mempool_refill (fuel : Nat) (w : World) (size : Int) :
    CResult (Int × World) :=
  if size.tmod ALIGN = 0 then
    (sty_mempool_chunk_alloc_and_fill fuel w size DEFAULT_REFILL_BLOCKS).bind
      fun cnw =>
        if cnw.2.1 = 1 then .ok (cnw.1, cnw.2.2)
        else
          (sty_mempool_freelist_build cnw.2.2.pool cnw.2.2.heap size
              (cnw.1 + size) (cnw.2.1 - 1)).bind fun ph =>
            .ok (cnw.1, { cnw.2.2 with pool := ph.1, heap := ph.2 })
  else .assertViolation "refill size alignment"

/-- model of `sty_mempool_alloc`.  The `mempool` argument is carried exactly
as in the source, which never uses it: every pool access on the small path
goes to the file-scope global `sty_global_mempool`, modelled by `w.pool`.
Requests above `MAX_BYTES` go straight to the system allocator and exit with
`STY_ALLOC_OOM` on a null answer; `bytes == 0` is promoted to 1. -/
def sty_mempool_alloc (fuel : Nat) (mempool : MemPool) (w : World)
    (bytes : Int) : CResult (Int × World) :=
  if 0 ≤ bytes then
    let bytes := if bytes = 0 then 1 else bytes
    if MAX_BYTES < bytes then
      let rw := mallocModel w bytes
      if rw.1 = 0 then .exited STY_ALLOC_OOM rw.2 else .ok (rw.1, rw.2)
    else
      let selected := sty_mempool_freelist_index bytes
      (sty_mempool_freelist_popblock w.pool w.heap selected).bind fun rp =>
        if rp.1 = 0 then
          let round_bytes := sty_mempool_bytes_round_up bytes
          sty_mempool_refill fuel { w with pool := rp.2 } round_bytes
        else .ok (rp.1, { w with pool := rp.2 })
  else .assertViolation "alloc bytes nonneg"

/-- model of `sty_mempool_free`: sizes above `MAX_BYTES` go to the system
`free` (a no-op on the modelled state); small sizes push the block onto the
free list of `freelist_index(size)` of the global pool (the `mempool`
argument is again unread, as in the source). -/
def sty_mempool_free (mempool : MemPool) (w : World) (ptr size : Int) :
    CResult World :=
  if 0 ≤ size then
    if MAX_BYTES < size then .ok w
    else
      let selected := sty_mempool_freelist_index size
      (sty_mempool_freelist_addblock w.pool w.heap selected ptr).bind fun ph =>
        .ok { w with pool := ph.1, heap := ph.2 }
  else .assertViolation "free size nonneg"

/-- model of `sty_mempool_freelist_addblock` compiled with NDEBUG: the
asserts vanish and the push happens at whatever index was computed. -/
def sty_mempool_freelist_addblock_ndebug (pool : MemPool) (heap : Heap)
    (index block : Int) : MemPool × Heap :=
  ({ pool with free_lists := Function.update pool.free_lists index block },
   Function.update heap block (pool.free_lists index))

/-- model of `sty_mempool_free` compiled with NDEBUG (asserts removed). -/
def sty_mempool_free_ndebug (mempool : MemPool) (w : World)
    (ptr size : Int) : World :=
  if MAX_BYTES < size then w
  else
    let selected := sty_mempool_freelist_index size
    let ph := sty_mempool_freelist_addblock_ndebug w.pool w.heap selected ptr
    { w with pool := ph.1, heap := ph.2 }

/-- the zero-initialized global pool: file-scope `sty_global_mempool` before
any call (C zero-initializes file-scope objects). -/
def zeroPool : MemPool :=
  { total_used := 0, available := 0, pool_start := 0, pool_end := 0,
    free_lists := fun _ => 0 }

/-- a fresh machine state: zeroed global pool, zeroed heap, empty trace, and
the given malloc oracle. -/
def initWorld (oracle : List Int) : World :=
  { pool := zeroPool, heap := fun _ => 0, oracle := oracle, calls := [] }

/-- length of the free-list chain starting at `head`, following link words
through the heap, with an exploration bound. -/
def chainLength (heap : Heap) : Int → Nat → Nat
  | _, 0 => 0
  | head, Nat.succ k =>
    if head = 0 then 0 else Nat.succ (chainLength heap (heap head) k)

/-- next answer of the malloc oracle (an exhausted oracle answers NULL). -/
def oracleHead (w : World) : Int :=
  match w.oracle with
  | [] => 0
  | r :: _ => r

/-- oracle remaining after one malloc call. -/
def oracleTail (w : World) : List Int :=
  match w.oracle with
  | [] => []
  | _ :: t => t

/-- the leftover-salvage step described by the specification: when the
reserve still holds `avail > 0` bytes, push the leftover block (starting at
`pool_start`) onto free list `freelist_index(avail)`. -/
def chunk_salvage (w : World) : World :=
  let bytes_left := w.pool.pool_end - w.pool.pool_start
  if 0 < bytes_left then
    { w with
      pool := { w.pool with
        free_lists := Function.update w.pool.free_lists
          (sty_mempool_freelist_index bytes_left) w.pool.pool_start },
      heap := Function.update w.heap w.pool.pool_start
        (w.pool.free_lists (sty_mempool_freelist_index bytes_left)) }
  else w

/-- the class walk described by the specification: scan block sizes
`i, i + ALIGN, ...` while `i ≤ MAX_BYTES` and return the first size whose
free list is non-empty (the Nat argument bounds the scan). -/
def firstNonempty (lists : Int → Int) : Int → Nat → Option Int
  | _, 0 => none
  | i, Nat.succ k =>
    if i ≤ MAX_BYTES then
      if lists (sty_mempool_freelist_index i) ≠ 0 then some i
      else firstNonempty lists (i + ALIGN) k
    else none

/-- the contract of the chunk allocator as worded by the specification and
claim C2, with the bounded self-recursion resolved to its effect: carve when
the reserve covers one block or more, otherwise salvage the leftover, make
exactly one system request of `2 * size * nblocks + round_up(total_used >> 4)`
bytes, install it as the reserve and carve, or on a null answer recycle the
first non-empty class from class-of(size) through class-of(MAX_BYTES) as the
entire reserve and carve, or finally null out `pool_end` and exit with
`STY_ALLOC_OOM`.  The development proves the source chunk allocator equal to
this description. -/
def chunk_alloc_escalation_spec (w : World) (size nblocks : Int) :
    CResult (Int × Int × World) :=
  let total_size := size * nblocks
  let bytes_left := w.pool.pool_end - w.pool.pool_start
  if total_size ≤ bytes_left then
    .ok (w.pool.pool_start, nblocks,
      { w with pool :=
        { w.pool with pool_start := w.pool.pool_start + total_size } })
  else if size ≤ bytes_left then
    let nblocks2 := bytes_left.tdiv size
    .ok (w.pool.pool_start, nblocks2,
      { w with pool :=
        { w.pool with pool_start := w.pool.pool_start + size * nblocks2 } })
  else
    let w1 := chunk_salvage w
    let bta := 2 * total_size +
      sty_mempool_bytes_round_up (w.pool.total_used.fdiv 16)
    let r := oracleHead w
    let w2 := { w1 with oracle := oracleTail w, calls := w.calls ++ [bta] }
    if r ≠ 0 then
      .ok (r, nblocks, { w2 with pool := { w2.pool with
        total_used := w2.pool.total_used + bta,
        pool_start := r + total_size,
        pool_end := r + bta } })
    else
      match firstNonempty w2.pool.free_lists size
          ((MAX_BYTES - size).fdiv ALIGN + 1).toNat with
      | some j =>
        let p := w2.pool.free_lists (sty_mempool_freelist_index j)
        let n2 := if total_size ≤ j then nblocks else j.tdiv size
        .ok (p, n2, { w2 with pool := { w2.pool with
          pool_start := p + size * n2,
          pool_end := p + j,
          free_lists := Function.update w2.pool.free_lists
            (sty_mempool_freelist_index j) (w2.heap p) } })
      | none =>
        .exited STY_ALLOC_OOM
          { w2 with pool :=
            { w2.pool with pool_start := 0, pool_end := 0 } }

/-- pointer component of an allocate outcome (0 when the call stopped). -/
def allocPtr : CResult (Int × World) → Int
  | .ok (p, _) => p
  | _ => 0

/-- final state of an allocate outcome (fresh empty state when stopped). -/
def allocWorld : CResult (Int × World) → World
  | .ok (_, w) => w
  | _ => initWorld []

/-- whether an allocate outcome returned normally. -/
def allocIsOk : CResult (Int × World) → Bool
  | .ok _ => true
  | _ => false

/-! Arithmetic facts about the grid functions. -/

/-- on arguments at least 1, the C truncating division of the class-index
computation agrees with Euclidean division. -/
theorem freelist_index_eq (b : Int) (hb : 1 ≤ b) :
    sty_mempool_freelist_index b = (b + 7) / 8 - 1 := by
  unfold sty_mempool_freelist_index ALIGN
  rw [Int.tdiv_eq_ediv (by omega) (by norm_num), show b + 8 - 1 = b + 7 by ring]

/-- class indices of in-range requests fall inside the free-list array. -/
theorem freelist_index_bounds (b : Int) (h1 : 1 ≤ b) (h2 : b ≤ 128) :
    0 ≤ sty_mempool_freelist_index b ∧ sty_mempool_freelist_index b < 16 := by
  rw [freelist_index_eq b h1]
  omega

/-- rounding up never goes below zero on nonnegative input. -/
theorem round_up_nonneg (x : Int) (hx : 0 ≤ x) :
    0 ≤ sty_mempool_bytes_round_up x := by
  unfold sty_mempool_bytes_round_up ALIGN
  omega

/-- the rounded size is a nonnegative multiple of 8 bounded by the input
plus 7, and dominates the input. -/
theorem round_up_spec (x : Int) :
    8 ∣ sty_mempool_bytes_round_up x ∧ x ≤ sty_mempool_bytes_round_up x ∧
      sty_mempool_bytes_round_up x < x + 8 := by
  unfold sty_mempool_bytes_round_up ALIGN
  omega

/-- C7: for all requests 1 ≤ b ≤ MAX_BYTES, the class computed by
`sty_mempool_freelist_index` holds blocks of exactly the size computed by
`sty_mempool_bytes_round_up`: `(freelist_index(b) + 1) * ALIGN == round_up(b)`. -/
theorem sty_index_round_up_round_trip (b : Int) (h1 : 1 ≤ b) (h2 : b ≤ 128) :
    (sty_mempool_freelist_index b + 1) * ALIGN = sty_mempool_bytes_round_up b := by
  rw [freelist_index_eq b h1]
  unfold sty_mempool_bytes_round_up ALIGN
  omega

/-- witness for C7 at the concrete request b = 7. -/
theorem sty_index_round_up_round_trip_witness :
    (1:Int) ≤ 7 ∧ (7:Int) ≤ 128 ∧
      (sty_mempool_freelist_index 7 + 1) * ALIGN = sty_mempool_bytes_round_up 7 :=
  ⟨by norm_num, by norm_num,
    sty_index_round_up_round_trip 7 (by norm_num) (by norm_num)⟩

/-- C8: `sty_mempool_alloc` on 0 bytes behaves identically to
`sty_mempool_alloc` on 1 byte, on every pool state, oracle and fuel: the
same pointer comes back and the same final state results (the source
promotes `bytes == 0` to 1 before doing anything else); the served class
size `round_up(1)` covers at least 1 byte. -/
theorem sty_alloc_zero_size (fuel : Nat) (mempool : MemPool) (w : World) :
    sty_mempool_alloc fuel mempool w 0 = sty_mempool_alloc fuel mempool w 1 ∧
      1 ≤ sty_mempool_bytes_round_up 1 :=
  ⟨rfl, by decide⟩

/-- C9: neither `sty_mempool_alloc` nor `sty_mempool_free` ever reads or
writes the pool passed as argument: both operate on the global pool (the
`pool` field of the machine state), so the outcome is the same for any two
argument pools and two distinct pool records share all free lists and the
reserve. -/
theorem sty_alloc_free_use_global_pool (fuel : Nat) (p1 p2 : MemPool)
    (w : World) (bytes ptr size : Int) :
    sty_mempool_alloc fuel p1 w bytes = sty_mempool_alloc fuel p2 w bytes ∧
      sty_mempool_free p1 w ptr size = sty_mempool_free p2 w ptr size :=
  ⟨rfl, rfl⟩

/-- C10: `sty_mempool_free` with size 0 passes the `size >= 0` assertion,
computes free-list index `(0 + ALIGN - 1) / ALIGN - 1 = -1`, and trips the
index-range assertion of the add-block helper; compiled with NDEBUG the same
call writes the block pointer at index -1, outside the `0 ≤ index <
FREELISTS` bounds. -/
theorem sty_free_size_zero (p : MemPool) (w : World) (ptr : Int)
    (h : ptr ≠ 0) :
    sty_mempool_freelist_index 0 = -1 ∧
    sty_mempool_free p w ptr 0 = .assertViolation "addblock index range" ∧
    (sty_mempool_free_ndebug p w ptr 0).pool.free_lists (-1) = ptr ∧
    ¬ (0 ≤ (-1:Int) ∧ (-1:Int) < FREELISTS) := by
  have hidx : sty_mempool_freelist_index 0 = -1 := by decide
  refine ⟨hidx, ?_, ?_, by decide⟩
  · simp [sty_mempool_free, sty_mempool_freelist_addblock, CResult.bind, hidx,
      MAX_BYTES, FREELISTS, h]
  · simp [sty_mempool_free_ndebug, sty_mempool_freelist_addblock_ndebug, hidx,
      MAX_BYTES]

/-- witness for C10 at the concrete non-null pointer 5. -/
theorem sty_free_size_zero_witness :
    (5:Int) ≠ 0 ∧
    (sty_mempool_freelist_index 0 = -1 ∧
     sty_mempool_free zeroPool (initWorld []) 5 0 =
       .assertViolation "addblock index range" ∧
     (sty_mempool_free_ndebug zeroPool (initWorld []) 5 0).pool.free_lists (-1)
       = 5 ∧
     ¬ (0 ≤ (-1:Int) ∧ (-1:Int) < FREELISTS)) :=
  ⟨by norm_num, sty_free_size_zero zeroPool (initWorld []) 5 (by norm_num)⟩

/-- rounded sizes pass the `size % ALIGN == 0` assertions (C `%` is `tmod`;
the rounded value of a nonnegative input is nonnegative, where `tmod` and
`emod` agree). -/
theorem round_up_tmod (x : Int) (hx : 0 ≤ x) :
    (sty_mempool_bytes_round_up x).tmod ALIGN = 0 := by
  have h8 : (8:Int) ∣ sty_mempool_bytes_round_up x := (round_up_spec x).1
  have hnn : 0 ≤ sty_mempool_bytes_round_up x := round_up_nonneg x hx
  unfold ALIGN
  rw [Int.tmod_eq_emod hnn (by norm_num)]
  omega

/-- C6: on a valid class index, the pop helper returns null cleanly on an
empty list without touching any block (the outcome is independent of the
heap), and on a non-empty list removes and returns the head, advancing the
list to the link stored in the head. -/
theorem sty_popblock_null_safe (pool : MemPool) (heap : Heap) (i : Int)
    (h0 : 0 ≤ i) (h1 : i < FREELISTS) :
    (pool.free_lists i = 0 →
      sty_mempool_freelist_popblock pool heap i = .ok (0, pool) ∧
      ∀ heap2, sty_mempool_freelist_popblock pool heap2 i =
        sty_mempool_freelist_popblock pool heap i) ∧
    (pool.free_lists i ≠ 0 →
      sty_mempool_freelist_popblock pool heap i =
        .ok (pool.free_lists i,
          { pool with free_lists :=
            Function.update pool.free_lists i (heap (pool.free_lists i)) })) := by
  constructor
  · intro hz
    constructor
    · simp [sty_mempool_freelist_popblock, h0, h1, hz]
    · intro heap2
      simp [sty_mempool_freelist_popblock, h0, h1, hz]
  · intro hnz
    simp [sty_mempool_freelist_popblock, h0, h1, hnz]

/-- the all-zero heap, used by concrete witnesses. -/
def zeroHeap : Heap := fun _ => 0

/-- witness for C6 at class 3 of the zero-initialized pool (empty list). -/
theorem sty_popblock_null_safe_witness :
    (0:Int) ≤ 3 ∧ (3:Int) < FREELISTS ∧
    ((zeroPool.free_lists 3 = 0 →
      sty_mempool_freelist_popblock zeroPool zeroHeap 3 = .ok (0, zeroPool) ∧
      ∀ heap2, sty_mempool_freelist_popblock zeroPool heap2 3 =
        sty_mempool_freelist_popblock zeroPool zeroHeap 3) ∧
    (zeroPool.free_lists 3 ≠ 0 →
      sty_mempool_freelist_popblock zeroPool zeroHeap 3 =
        .ok (zeroPool.free_lists 3,
          { zeroPool with free_lists :=
            Function.update zeroPool.free_lists 3 (zeroHeap (zeroPool.free_lists 3)) }))) :=
  ⟨by norm_num, by norm_num [FREELISTS],
    sty_popblock_null_safe zeroPool zeroHeap 3 (by norm_num)
      (by norm_num [FREELISTS])⟩

/-! Facts about the chain built by `sty_mempool_freelist_build`. -/

/-- a null head has chain length zero for any bound. -/
theorem chainLength_null (heap : Heap) (k : Nat) : chainLength heap 0 k = 0 := by
  cases k <;> simp [chainLength]

/-- the link-threading writes of `sty_buildLinks` all land at addresses at
least `blk`, so lookups strictly below `blk` see the original heap. -/
theorem buildLinks_lookup_lt (size : Int) (hs : 0 < size) :
    ∀ (n : Nat) (heap : Heap) (blk x : Int), x < blk →
      sty_buildLinks heap blk size n x = heap x := by
  intro n
  induction n using Nat.twoStepInduction with
  | zero => intro heap blk x hx; rfl
  | one =>
    intro heap blk x hx
    show Function.update heap blk 0 x = heap x
    exact Function.update_noteq (by omega) _ _
  | more n ihn ihn1 =>
    intro heap blk x hx
    show sty_buildLinks (Function.update heap blk (blk + size)) (blk + size)
        size (n + 1) x = heap x
    rw [ihn1 _ _ _ (by omega)]
    exact Function.update_noteq (by omega) _ _

/-- the chain threaded by `sty_buildLinks` over `n ≥ 1` blocks at a positive
base address has exactly `n` linked blocks. -/
theorem buildLinks_chainLength (size : Int) (hs : 0 < size) :
    ∀ (n : Nat) (heap : Heap) (blk : Int) (fuel : Nat), 0 < blk → 1 ≤ n →
      n ≤ fuel → chainLength (sty_buildLinks heap blk size n) blk fuel = n := by
  intro n
  induction n using Nat.twoStepInduction with
  | zero => intro heap blk fuel hb h1 hf; omega
  | one =>
    intro heap blk fuel hb h1 hf
    obtain ⟨f, rfl⟩ : ∃ f, fuel = f + 1 := ⟨fuel - 1, by omega⟩
    show chainLength (Function.update heap blk 0) blk (f + 1) = 1
    simp [chainLength, hb.ne', Function.update_same, chainLength_null]
  | more n ihn ihn1 =>
    intro heap blk fuel hb h1 hf
    obtain ⟨f, rfl⟩ : ∃ f, fuel = f + 1 := ⟨fuel - 1, by omega⟩
    show chainLength (sty_buildLinks (Function.update heap blk (blk + size))
        (blk + size) size (n + 1)) blk (f + 1) = n + 2
    have hlook : sty_buildLinks (Function.update heap blk (blk + size))
        (blk + size) size (n + 1) blk = blk + size := by
      rw [buildLinks_lookup_lt size hs (n + 1) _ _ _ (by omega)]
      exact Function.update_same _ _ _
    simp only [chainLength, hb.ne', if_false, ite_false, hlook]
    rw [ihn1 _ (blk + size) f (by omega) (by omega) (by omega)]

/-! Correspondence between the salvage-failure loop and the class walk. -/

/-- positions found by the class walk lie in the scanned range and name a
non-empty list. -/
theorem firstNonempty_some_facts :
    ∀ (k : Nat) (L : Int → Int) (i j : Int),
      firstNonempty L i k = some j →
      i ≤ j ∧ j ≤ MAX_BYTES ∧ L (sty_mempool_freelist_index j) ≠ 0 := by
  intro k
  induction k with
  | zero => intro L i j h; cases h
  | succ k ih =>
    intro L i j h
    unfold firstNonempty at h
    by_cases hle : i ≤ MAX_BYTES
    · rw [if_pos hle] at h
      by_cases hne : L (sty_mempool_freelist_index i) ≠ 0
      · rw [if_pos hne] at h
        cases h
        exact ⟨le_refl _, hle, hne⟩
      · rw [if_neg hne] at h
        have hfacts := ih L (i + ALIGN) j h
        refine ⟨?_, hfacts.2.1, hfacts.2.2⟩
        have h8 : (0:Int) < ALIGN := by norm_num [ALIGN]
        omega
    · rw [if_neg hle] at h
      cases h

/-- the salvage-failure loop of the chunk allocator equals the class walk:
it returns the state with the first non-empty scanned class popped and
installed as the entire reserve, or `none` when every scanned class is
empty.  The scan start must be a positive multiple of 8 so that every
scanned class index passes the pop assertions. -/
theorem sty_recycle_eq_scan :
    ∀ (k : Nat) (i : Int) (w : World), 8 ∣ i → 8 ≤ i →
      sty_recycle w k i =
        (match firstNonempty w.pool.free_lists i k with
         | none => .ok none
         | some j =>
           .ok (some { w with pool := { w.pool with
             pool_start := w.pool.free_lists (sty_mempool_freelist_index j),
             pool_end := w.pool.free_lists (sty_mempool_freelist_index j) + j,
             free_lists := Function.update w.pool.free_lists (sty_mempool_freelist_index j) (w.heap (w.pool.free_lists (sty_mempool_freelist_index j))) } })) := by
  intro k
  induction k with
  | zero => intro i w _ _; rfl
  | succ k ih =>
    intro i w h8 hi
    by_cases hle : i ≤ MAX_BYTES
    · have hidx := freelist_index_bounds i (by omega)
        (by unfold MAX_BYTES at hle; omega)
      have hpop : (0 ≤ sty_mempool_freelist_index i ∧
          sty_mempool_freelist_index i < FREELISTS) := by
        unfold FREELISTS
        exact hidx
      by_cases hhead : w.pool.free_lists (sty_mempool_freelist_index i) = 0
      · have hrec : sty_recycle w (k + 1) i =
            sty_recycle w k (i + ALIGN) := by
          simp [sty_recycle, hle, sty_mempool_freelist_popblock, hpop, hhead,
            CResult.bind]
        have hscan : firstNonempty w.pool.free_lists i (k + 1) =
            firstNonempty w.pool.free_lists (i + ALIGN) k := by
          simp [firstNonempty, hle, hhead]
        rw [hrec, hscan]
        exact ih (i + ALIGN) w (by norm_num [ALIGN]; omega) (by norm_num [ALIGN]; omega)
      · have hscan : firstNonempty w.pool.free_lists i (k + 1) = some i := by
          simp [firstNonempty, hle, hhead]
        rw [hscan]
        simp [sty_recycle, hle, sty_mempool_freelist_popblock, hpop, hhead,
          CResult.bind]
    · have hscan : firstNonempty w.pool.free_lists i (k + 1) = none := by
        simp [firstNonempty, hle]
      rw [hscan]
      simp [sty_recycle, hle]

/-! Unfolding lemmas for the two carve branches of the chunk allocator. -/

/-- when the reserve fully covers the request the chunk allocator returns
`pool_start`, advances it by the full batch and leaves the count unchanged,
for any positive fuel. -/
theorem chunk_step_full (fuel : Nat) (w : World) (size nblocks : Int)
    (hal : size.tmod ALIGN = 0)
    (h : size * nblocks ≤ w.pool.pool_end - w.pool.pool_start) :
    sty_mempool_chunk_alloc_and_fill (fuel + 1) w size nblocks =
      .ok (w.pool.pool_start, nblocks,
        { w with pool := { w.pool with pool_start := w.pool.pool_start + size * nblocks } }) := by
  show sty_mempool_chunk_alloc_and_fill (Nat.succ fuel) w size nblocks = _
  simp [sty_mempool_chunk_alloc_and_fill, hal, h]

/-- when the reserve covers at least one block but not the full batch the
chunk allocator lowers the count to `bytes_left / size` (C truncating
division), returns `pool_start` and advances it by the lowered batch. -/
theorem chunk_step_lowered (fuel : Nat) (w : World) (size nblocks : Int)
    (hal : size.tmod ALIGN = 0)
    (h1 : size ≤ w.pool.pool_end - w.pool.pool_start)
    (h2 : w.pool.pool_end - w.pool.pool_start < size * nblocks) :
    sty_mempool_chunk_alloc_and_fill (fuel + 1) w size nblocks =
      .ok (w.pool.pool_start,
        (w.pool.pool_end - w.pool.pool_start).tdiv size,
        { w with pool := { w.pool with pool_start := w.pool.pool_start + size * ((w.pool.pool_end - w.pool.pool_start).tdiv size) } }) := by
  show sty_mempool_chunk_alloc_and_fill (Nat.succ fuel) w size nblocks = _
  simp [sty_mempool_chunk_alloc_and_fill, hal, h1, not_le.mpr h2]


/-- malloc on an exhausted oracle answers NULL and records the request. -/
theorem mallocModel_nil (w : World) (h : w.oracle = []) (b : Int) :
    mallocModel w b = (0, { w with calls := w.calls ++ [b] }) := by
  simp [mallocModel, h]

/-- malloc consumes the oracle head and records the request. -/
theorem mallocModel_cons (w : World) (r : Int) (rest : List Int)
    (h : w.oracle = r :: rest) (b : Int) :
    mallocModel w b = (r, { w with oracle := rest, calls := w.calls ++ [b] }) := by
  simp [mallocModel, h]

/-- aligned positive sizes are multiples of 8 at least 8. -/
theorem aligned_size_facts (size : Int) (hal : size.tmod ALIGN = 0)
    (hpos : 0 < size) : (8:Int) ∣ size ∧ 8 ≤ size := by
  unfold ALIGN at hal
  rw [Int.tmod_eq_emod hpos.le (by norm_num)] at hal
  have hdvd : (8:Int) ∣ size := Int.dvd_of_emod_eq_zero hal
  exact ⟨hdvd, by omega⟩

theorem chunk_alloc_eq_escalation_spec (w : World) (size nblocks : Int)
    (hal : size.tmod ALIGN = 0) (hpos : 0 < size) (hle : size ≤ MAX_BYTES)
    (hn : 1 ≤ nblocks) (htu : 0 ≤ w.pool.total_used)
    (hinv : w.pool.pool_start = 0 → w.pool.pool_end = 0) (fuel : Nat) :
    sty_mempool_chunk_alloc_and_fill (fuel + 2) w size nblocks =
      chunk_alloc_escalation_spec w size nblocks := by
  by_cases hA : size * nblocks ≤ w.pool.pool_end - w.pool.pool_start
  · rw [show fuel + 2 = (fuel + 1) + 1 from rfl,
      chunk_step_full (fuel + 1) w size nblocks hal hA]
    simp [chunk_alloc_escalation_spec, hA]
  · by_cases hB : size ≤ w.pool.pool_end - w.pool.pool_start
    · rw [show fuel + 2 = (fuel + 1) + 1 from rfl,
        chunk_step_lowered (fuel + 1) w size nblocks hal hB (not_le.mp hA)]
      simp [chunk_alloc_escalation_spec, hA, hB]
    · -- escalation branch
      have hCbl : w.pool.pool_end - w.pool.pool_start < size := not_le.mp hB
      have hts0 : 0 ≤ size * nblocks := by positivity
      have hbta0 : 0 ≤ sty_mempool_bytes_round_up (w.pool.total_used.fdiv 16) :=
        round_up_nonneg _ (Int.fdiv_nonneg htu (by norm_num))
      have hdvd8 := (aligned_size_facts size hal hpos).1
      have h8le := (aligned_size_facts size hal hpos).2
      have hbtage : size * nblocks ≤
          2 * (size * nblocks) + sty_mempool_bytes_round_up (w.pool.total_used.fdiv 16) := by
        linarith
      by_cases hbl0 : 0 < w.pool.pool_end - w.pool.pool_start
      · -- leftover salvage happens first
        have hpsne : w.pool.pool_start ≠ 0 := fun hz => by
          have := hinv hz
          omega
        have hidxb : 0 ≤ sty_mempool_freelist_index (w.pool.pool_end - w.pool.pool_start) ∧
            sty_mempool_freelist_index (w.pool.pool_end - w.pool.pool_start) < FREELISTS := by
          unfold FREELISTS
          exact freelist_index_bounds (w.pool.pool_end - w.pool.pool_start)
            (by omega) (by unfold MAX_BYTES at hle; omega)
        show sty_mempool_chunk_alloc_and_fill (Nat.succ (fuel + 1)) w size nblocks = _
        unfold sty_mempool_chunk_alloc_and_fill
        simp only [hal, hA, hB, hbl0, ite_true, ite_false, if_true, if_false,
          eq_self_iff_true, CResult.bind, sty_mempool_freelist_addblock, hpsne,
          hidxb.1, hidxb.2, and_self]
        rcases horacle : w.oracle with _ | ⟨r, rest⟩
        · rw [mallocModel_nil _ rfl]
          simp only [if_true, eq_self_iff_true, ite_true]
          rw [sty_recycle_eq_scan (((MAX_BYTES - size).fdiv ALIGN + 1).toNat) size _ hdvd8 h8le]
          simp only []
          rcases hscan : firstNonempty
              (Function.update w.pool.free_lists (sty_mempool_freelist_index (w.pool.pool_end - w.pool.pool_start)) w.pool.pool_start)
              size (((MAX_BYTES - size).fdiv ALIGN + 1).toNat) with _ | j
          · simp only [hscan]
            simp [chunk_alloc_escalation_spec, hA, hB, hbl0, chunk_salvage,
              oracleHead, oracleTail, horacle, hscan]
          · simp only [hscan]
            have hfacts := firstNonempty_some_facts _ _ _ _ hscan
            by_cases hj : size * nblocks ≤ j
            · rw [chunk_step_full fuel _ size nblocks hal ?hcov6]
              case hcov6 => simp; linarith [hj]
              simp [chunk_alloc_escalation_spec, hA, hB, hbl0, chunk_salvage,
                oracleHead, oracleTail, horacle, hscan, hj]
            · rw [chunk_step_lowered fuel _ size nblocks hal ?hone7 ?hcov7]
              case hone7 => simp; linarith [hfacts.1]
              case hcov7 => simp; linarith [not_le.mp hj]
              simp [chunk_alloc_escalation_spec, hA, hB, hbl0, chunk_salvage,
                oracleHead, oracleTail, horacle, hscan, hj]
        · rw [mallocModel_cons _ r rest rfl]
          by_cases hr : r = 0
          · subst hr
            simp only [if_true, eq_self_iff_true, ite_true]
            rw [sty_recycle_eq_scan (((MAX_BYTES - size).fdiv ALIGN + 1).toNat) size _ hdvd8 h8le]
            simp only []
            rcases hscan : firstNonempty
                (Function.update w.pool.free_lists (sty_mempool_freelist_index (w.pool.pool_end - w.pool.pool_start)) w.pool.pool_start)
                size (((MAX_BYTES - size).fdiv ALIGN + 1).toNat) with _ | j
            · simp only [hscan]
              simp [chunk_alloc_escalation_spec, hA, hB, hbl0, chunk_salvage,
                oracleHead, oracleTail, horacle, hscan]
            · simp only [hscan]
              have hfacts := firstNonempty_some_facts _ _ _ _ hscan
              by_cases hj : size * nblocks ≤ j
              · rw [chunk_step_full fuel _ size nblocks hal ?hcov8]
                case hcov8 => simp; linarith [hj]
                simp [chunk_alloc_escalation_spec, hA, hB, hbl0, chunk_salvage,
                  oracleHead, oracleTail, horacle, hscan, hj]
              · rw [chunk_step_lowered fuel _ size nblocks hal ?hone9 ?hcov9]
                case hone9 => simp; linarith [hfacts.1]
                case hcov9 => simp; linarith [not_le.mp hj]
                simp [chunk_alloc_escalation_spec, hA, hB, hbl0, chunk_salvage,
                  oracleHead, oracleTail, horacle, hscan, hj]
          · simp only [hr, if_false, ite_false]
            rw [chunk_step_full fuel _ size nblocks hal ?hcov10]
            case hcov10 => simp; linarith [hbtage]
            simp [chunk_alloc_escalation_spec, hA, hB, hbl0, chunk_salvage,
              oracleHead, oracleTail, horacle, hr]
      · -- no leftover to salvage
        show sty_mempool_chunk_alloc_and_fill (Nat.succ (fuel + 1)) w size nblocks = _
        unfold sty_mempool_chunk_alloc_and_fill
        simp only [hal, hA, hB, hbl0, ite_true, ite_false, if_true, if_false,
          eq_self_iff_true, CResult.bind]
        rcases horacle : w.oracle with _ | ⟨r, rest⟩
        · rw [mallocModel_nil w horacle]
          simp only [if_true, horacle]
          rw [sty_recycle_eq_scan (((MAX_BYTES - size).fdiv ALIGN + 1).toNat) size _ hdvd8 h8le]
          simp only []
          rcases hscan : firstNonempty w.pool.free_lists size
              (((MAX_BYTES - size).fdiv ALIGN + 1).toNat) with _ | j
          · simp only [hscan]
            simp [chunk_alloc_escalation_spec, hA, hB, hbl0, chunk_salvage,
              oracleHead, oracleTail, horacle, hscan]
          · simp only [hscan]
            have hfacts := firstNonempty_some_facts _ _ _ _ hscan
            by_cases hj : size * nblocks ≤ j
            · rw [chunk_step_full fuel _ size nblocks hal ?hcov]
              case hcov => simp only []; simp; linarith [hj]
              simp [chunk_alloc_escalation_spec, hA, hB, hbl0, chunk_salvage,
                oracleHead, oracleTail, horacle, hscan, hj]
            · rw [chunk_step_lowered fuel _ size nblocks hal ?hone ?hcov2]
              case hone => simp; linarith [hfacts.1]
              case hcov2 => simp; linarith [not_le.mp hj]
              simp [chunk_alloc_escalation_spec, hA, hB, hbl0, chunk_salvage,
                oracleHead, oracleTail, horacle, hscan, hj]
        · rw [mallocModel_cons w r rest horacle]
          by_cases hr : r = 0
          · subst hr
            simp only [if_true, eq_self_iff_true, ite_true]
            rw [sty_recycle_eq_scan (((MAX_BYTES - size).fdiv ALIGN + 1).toNat) size _ hdvd8 h8le]
            simp only []
            rcases hscan : firstNonempty w.pool.free_lists size
                (((MAX_BYTES - size).fdiv ALIGN + 1).toNat) with _ | j
            · simp only [hscan]
              simp [chunk_alloc_escalation_spec, hA, hB, hbl0, chunk_salvage,
                oracleHead, oracleTail, horacle, hscan]
            · simp only [hscan]
              have hfacts := firstNonempty_some_facts _ _ _ _ hscan
              by_cases hj : size * nblocks ≤ j
              · rw [chunk_step_full fuel _ size nblocks hal ?hcov3]
                case hcov3 => simp; linarith [hj]
                simp [chunk_alloc_escalation_spec, hA, hB, hbl0, chunk_salvage,
                  oracleHead, oracleTail, horacle, hscan, hj]
              · rw [chunk_step_lowered fuel _ size nblocks hal ?hone4 ?hcov4]
                case hone4 => simp; linarith [hfacts.1]
                case hcov4 => simp; linarith [not_le.mp hj]
                simp [chunk_alloc_escalation_spec, hA, hB, hbl0, chunk_salvage,
                  oracleHead, oracleTail, horacle, hscan, hj]
          · simp only [hr, if_false, ite_false]
            rw [chunk_step_full fuel _ size nblocks hal ?hcov5]
            case hcov5 => simp; linarith [hbtage]
            simp [chunk_alloc_escalation_spec, hA, hB, hbl0, chunk_salvage,
              oracleHead, oracleTail, horacle, hr]

theorem escalation_spec_cases (w : World) (size nblocks : Int)
    (hpos : 0 < size) (hn : 1 ≤ nblocks) (htu : 0 ≤ w.pool.total_used)
    (hinv : w.pool.pool_start = 0 → w.pool.pool_end = 0) :
    (∃ p n2 w2, chunk_alloc_escalation_spec w size nblocks = .ok (p, n2, w2) ∧
      p ≠ 0 ∧ 1 ≤ n2 ∧ n2 ≤ nblocks ∧
      w2.pool.pool_start = p + size * n2 ∧
      p + size * n2 ≤ w2.pool.pool_end ∧
      (size * nblocks ≤ w.pool.pool_end - w.pool.pool_start →
        n2 = nblocks ∧ p = w.pool.pool_start ∧
          w2.pool.pool_end = w.pool.pool_end) ∧
      (size ≤ w.pool.pool_end - w.pool.pool_start →
        w.pool.pool_end - w.pool.pool_start < size * nblocks →
        n2 = (w.pool.pool_end - w.pool.pool_start).tdiv size)) ∨
    (∃ w2, chunk_alloc_escalation_spec w size nblocks =
        .exited STY_ALLOC_OOM w2 ∧ w2.pool.pool_end = 0) := by
  have hts : size ≤ size * nblocks := le_mul_of_one_le_right hpos.le hn
  by_cases hA : size * nblocks ≤ w.pool.pool_end - w.pool.pool_start
  · left
    have hps : w.pool.pool_start ≠ 0 := by
      intro hz
      have := hinv hz
      rw [hz, this] at hA
      linarith
    refine ⟨w.pool.pool_start, nblocks,
      { w with pool := { w.pool with
          pool_start := w.pool.pool_start + size * nblocks } },
      by simp [chunk_alloc_escalation_spec, hA], hps, hn, le_refl _, rfl,
      by simp only []; linarith, fun h => ⟨rfl, rfl, rfl⟩, ?_⟩
    intro h1 h2
    linarith
  · by_cases hB : size ≤ w.pool.pool_end - w.pool.pool_start
    · left
      have h0bl : 0 ≤ w.pool.pool_end - w.pool.pool_start := le_trans hpos.le hB
      have hps : w.pool.pool_start ≠ 0 := by
        intro hz
        have := hinv hz
        rw [hz, this] at hB
        linarith
      have htd : (w.pool.pool_end - w.pool.pool_start).tdiv size =
          (w.pool.pool_end - w.pool.pool_start) / size :=
        Int.tdiv_eq_ediv h0bl hpos.le
      have h1le : 1 ≤ (w.pool.pool_end - w.pool.pool_start) / size :=
        (Int.le_ediv_iff_mul_le hpos).mpr (by linarith)
      have hlt : (w.pool.pool_end - w.pool.pool_start) / size < nblocks :=
        (Int.ediv_lt_iff_lt_mul hpos).mpr (by linarith [not_le.mp hA])
      have hmul : size * ((w.pool.pool_end - w.pool.pool_start) / size) ≤
          w.pool.pool_end - w.pool.pool_start := by
        have he := Int.ediv_add_emod (w.pool.pool_end - w.pool.pool_start) size
        have hm := Int.emod_nonneg (w.pool.pool_end - w.pool.pool_start)
          (ne_of_gt hpos)
        linarith
      refine ⟨w.pool.pool_start, (w.pool.pool_end - w.pool.pool_start).tdiv size,
        { w with pool := { w.pool with
            pool_start := w.pool.pool_start +
              size * ((w.pool.pool_end - w.pool.pool_start).tdiv size) } },
        by simp [chunk_alloc_escalation_spec, hA, hB], hps,
        by rw [htd]; exact h1le, by rw [htd]; exact hlt.le, rfl,
        by simp only []; rw [htd]; linarith,
        fun h => absurd h hA, fun h1 h2 => rfl⟩
    · have hC : w.pool.pool_end - w.pool.pool_start < size := not_le.mp hB
      have hbta0 : 0 ≤ sty_mempool_bytes_round_up (w.pool.total_used.fdiv 16) :=
        round_up_nonneg _ (Int.fdiv_nonneg htu (by norm_num))
      have hts0 : 0 ≤ size * nblocks := by positivity
      by_cases hr : oracleHead w = 0
      · rcases hscan : firstNonempty (chunk_salvage w).pool.free_lists size
            (((MAX_BYTES - size).fdiv ALIGN + 1).toNat) with _ | j
        · right
          refine ⟨{ pool := { (chunk_salvage w).pool with pool_start := 0, pool_end := 0 },
                      heap := (chunk_salvage w).heap, oracle := oracleTail w,
                      calls := w.calls ++ [2 * (size * nblocks) + sty_mempool_bytes_round_up (w.pool.total_used.fdiv 16)] },
            ?_, rfl⟩
          simp [chunk_alloc_escalation_spec, hA, hB, hr, hscan]
        · left
          have hfacts := firstNonempty_some_facts _ _ _ _ hscan
          by_cases hj : size * nblocks ≤ j
          · refine ⟨(chunk_salvage w).pool.free_lists (sty_mempool_freelist_index j), nblocks,
              { pool := { (chunk_salvage w).pool with
                              pool_start := (chunk_salvage w).pool.free_lists (sty_mempool_freelist_index j) + size * nblocks,
                              pool_end := (chunk_salvage w).pool.free_lists (sty_mempool_freelist_index j) + j,
                              free_lists := Function.update (chunk_salvage w).pool.free_lists (sty_mempool_freelist_index j) ((chunk_salvage w).heap ((chunk_salvage w).pool.free_lists (sty_mempool_freelist_index j))) },
                  heap := (chunk_salvage w).heap, oracle := oracleTail w,
                  calls := w.calls ++ [2 * (size * nblocks) + sty_mempool_bytes_round_up (w.pool.total_used.fdiv 16)] },
              ?_, hfacts.2.2, hn, le_refl _, rfl, by simp only []; linarith,
              fun h => absurd h (by linarith), fun h1 h2 => absurd h1 (by linarith)⟩
            simp [chunk_alloc_escalation_spec, hA, hB, hr, hscan, hj]
          · have h0j : 0 ≤ j := le_trans hpos.le hfacts.1
            have htd : j.tdiv size = j / size := Int.tdiv_eq_ediv h0j hpos.le
            have h1le : 1 ≤ j / size :=
              (Int.le_ediv_iff_mul_le hpos).mpr (by linarith [hfacts.1])
            have hlt : j / size < nblocks :=
              (Int.ediv_lt_iff_lt_mul hpos).mpr (by linarith [not_le.mp hj])
            have hmul : size * (j / size) ≤ j := by
              have he := Int.ediv_add_emod j size
              have hm := Int.emod_nonneg j (ne_of_gt hpos)
              linarith
            refine ⟨(chunk_salvage w).pool.free_lists (sty_mempool_freelist_index j), j.tdiv size,
              { pool := { (chunk_salvage w).pool with
                              pool_start := (chunk_salvage w).pool.free_lists (sty_mempool_freelist_index j) + size * j.tdiv size,
                              pool_end := (chunk_salvage w).pool.free_lists (sty_mempool_freelist_index j) + j,
                              free_lists := Function.update (chunk_salvage w).pool.free_lists (sty_mempool_freelist_index j) ((chunk_salvage w).heap ((chunk_salvage w).pool.free_lists (sty_mempool_freelist_index j))) },
                  heap := (chunk_salvage w).heap, oracle := oracleTail w,
                  calls := w.calls ++ [2 * (size * nblocks) + sty_mempool_bytes_round_up (w.pool.total_used.fdiv 16)] },
              ?_, hfacts.2.2, by rw [htd]; exact h1le, by rw [htd]; exact hlt.le,
              rfl, by simp only []; rw [htd]; linarith,
              fun h => absurd h (by linarith), fun h1 h2 => absurd h1 (by linarith)⟩
            simp [chunk_alloc_escalation_spec, hA, hB, hr, hscan, hj]
      · left
        refine ⟨oracleHead w, nblocks,
          { pool := { (chunk_salvage w).pool with
                          total_used := (chunk_salvage w).pool.total_used + (2 * (size * nblocks) + sty_mempool_bytes_round_up (w.pool.total_used.fdiv 16)),
                          pool_start := oracleHead w + size * nblocks,
                          pool_end := oracleHead w + (2 * (size * nblocks) + sty_mempool_bytes_round_up (w.pool.total_used.fdiv 16)) },
              heap := (chunk_salvage w).heap, oracle := oracleTail w,
              calls := w.calls ++ [2 * (size * nblocks) + sty_mempool_bytes_round_up (w.pool.total_used.fdiv 16)] },
          ?_, hr, hn, le_refl _, rfl, by simp only []; linarith,
          fun h => absurd h (by linarith), fun h1 h2 => absurd h1 (by linarith)⟩
        simp [chunk_alloc_escalation_spec, hA, hB, hr]

/-- C2: when the reserve cannot cover one block, the chunk allocator
escalates exactly as the specification orders: (1) a positive leftover is
pushed onto free list `freelist_index(avail)`; (2) exactly one system
request of `2 * size * nblocks + round_up(total_used >> 4)` bytes is made
and on success the returned range becomes the reserve, the byte count is
added to `total_used` and the recursion carves from the fresh reserve;
(3) on a null answer the classes from class-of(size) through
class-of(MAX_BYTES) are walked, the first non-empty list is popped and
installed as the entire reserve and the recursion carves from it; (4) when
every such class is empty, `pool_end` is nulled and the process exits with
`STY_ALLOC_OOM`.  Formally the source chunk allocator equals the
specification-side escalation description `chunk_alloc_escalation_spec`. -/
theorem sty_chunk_alloc_escalation_order (w : World) (size nblocks : Int)
    (hal : size.tmod ALIGN = 0) (hpos : 0 < size) (hle : size ≤ MAX_BYTES)
    (hn : 1 ≤ nblocks) (htu : 0 ≤ w.pool.total_used)
    (hinv : w.pool.pool_start = 0 → w.pool.pool_end = 0)
    (hshort : w.pool.pool_end - w.pool.pool_start < size) (fuel : Nat) :
    sty_mempool_chunk_alloc_and_fill (fuel + 2) w size nblocks =
      chunk_alloc_escalation_spec w size nblocks :=
  chunk_alloc_eq_escalation_spec w size nblocks hal hpos hle hn htu hinv fuel

/-- witness for C2: a fresh pool (empty reserve) with one system answer. -/
theorem sty_chunk_alloc_escalation_order_witness :
    (8:Int).tmod ALIGN = 0 ∧ (0:Int) < 8 ∧ (8:Int) ≤ MAX_BYTES ∧
    (1:Int) ≤ 20 ∧ 0 ≤ (initWorld [4096]).pool.total_used ∧
    ((initWorld [4096]).pool.pool_start = 0 →
      (initWorld [4096]).pool.pool_end = 0) ∧
    (initWorld [4096]).pool.pool_end - (initWorld [4096]).pool.pool_start < 8 ∧
    sty_mempool_chunk_alloc_and_fill (0 + 2) (initWorld [4096]) 8 20 =
      chunk_alloc_escalation_spec (initWorld [4096]) 8 20 :=
  ⟨by decide, by decide, by decide, by decide, by decide, by decide, by decide,
    sty_chunk_alloc_escalation_order (initWorld [4096]) 8 20 (by decide)
      (by decide) (by decide) (by decide) (by decide) (by decide) (by decide) 0⟩

/-- C3: every normal return of the chunk allocator hands back the start of
a contiguous carve of exactly the returned count of blocks: the reserve
start advances from the returned pointer by `size * nblocks_out` and stays
inside the reserve; the count is never lowered below 1 nor raised; when the
reserve fully covers the request it is unchanged and the advance is exactly
`size * nblocks_in`; when the reserve covers at least one block but not the
batch, the count is lowered to `bytes_left / size`. -/
theorem sty_chunk_alloc_contract (w : World) (size nblocks : Int)
    (hal : size.tmod ALIGN = 0) (hpos : 0 < size) (hle : size ≤ MAX_BYTES)
    (hn : 1 ≤ nblocks) (htu : 0 ≤ w.pool.total_used)
    (hinv : w.pool.pool_start = 0 → w.pool.pool_end = 0)
    (p n2 : Int) (w2 : World)
    (hok : sty_mempool_chunk_alloc_and_fill 2 w size nblocks =
      .ok (p, n2, w2)) :
    1 ≤ n2 ∧ n2 ≤ nblocks ∧
    w2.pool.pool_start = p + size * n2 ∧
    p + size * n2 ≤ w2.pool.pool_end ∧
    (size * nblocks ≤ w.pool.pool_end - w.pool.pool_start →
      n2 = nblocks ∧ p = w.pool.pool_start ∧
        w2.pool.pool_end = w.pool.pool_end) ∧
    (size ≤ w.pool.pool_end - w.pool.pool_start →
      w.pool.pool_end - w.pool.pool_start < size * nblocks →
      n2 = (w.pool.pool_end - w.pool.pool_start).tdiv size) := by
  have hm := chunk_alloc_eq_escalation_spec w size nblocks hal hpos hle hn htu
    hinv 0
  rw [show (0 + 2 : Nat) = 2 from rfl] at hm
  rw [hm] at hok
  rcases escalation_spec_cases w size nblocks hpos hn htu hinv with
    ⟨q, m2, v2, hq, hqne, hq1, hqle, hqs, hqe, hqfull, hqpart⟩ | ⟨v2, hq, _⟩
  · rw [hq] at hok
    have hpq : q = p ∧ m2 = n2 ∧ v2 = w2 := by
      have := hok
      simp only [CResult.ok.injEq, Prod.mk.injEq] at this
      exact ⟨this.1, this.2.1, this.2.2⟩
    obtain ⟨rfl, rfl, rfl⟩ := hpq
    exact ⟨hq1, hqle, hqs, hqe, hqfull, hqpart⟩
  · rw [hq] at hok
    cases hok

/-- witness for C3 on a pool whose reserve covers the full batch. -/
theorem sty_chunk_alloc_contract_witness :
    (8:Int).tmod ALIGN = 0 ∧ (0:Int) < 8 ∧ (8:Int) ≤ MAX_BYTES ∧
    (1:Int) ≤ 20 ∧
    0 ≤ (World.mk (MemPool.mk 0 0 1000 1200 (fun _ => 0)) zeroHeap [] []).pool.total_used ∧
    ((World.mk (MemPool.mk 0 0 1000 1200 (fun _ => 0)) zeroHeap [] []).pool.pool_start = 0 →
      (World.mk (MemPool.mk 0 0 1000 1200 (fun _ => 0)) zeroHeap [] []).pool.pool_end = 0) ∧
    sty_mempool_chunk_alloc_and_fill 2
        (World.mk (MemPool.mk 0 0 1000 1200 (fun _ => 0)) zeroHeap [] []) 8 20 =
      .ok (1000, 20, World.mk (MemPool.mk 0 0 1160 1200 (fun _ => 0)) zeroHeap [] []) ∧
    (1 ≤ (20:Int) ∧ (20:Int) ≤ 20 ∧
      (World.mk (MemPool.mk 0 0 1160 1200 (fun _ => 0)) zeroHeap [] []).pool.pool_start = 1000 + 8 * 20 ∧
      1000 + 8 * 20 ≤ (World.mk (MemPool.mk 0 0 1160 1200 (fun _ => 0)) zeroHeap [] []).pool.pool_end ∧
      ((8:Int) * 20 ≤ (World.mk (MemPool.mk 0 0 1000 1200 (fun _ => 0)) zeroHeap [] []).pool.pool_end - (World.mk (MemPool.mk 0 0 1000 1200 (fun _ => 0)) zeroHeap [] []).pool.pool_start →
        (20:Int) = 20 ∧ (1000:Int) = (World.mk (MemPool.mk 0 0 1000 1200 (fun _ => 0)) zeroHeap [] []).pool.pool_start ∧
          (World.mk (MemPool.mk 0 0 1160 1200 (fun _ => 0)) zeroHeap [] []).pool.pool_end = (World.mk (MemPool.mk 0 0 1000 1200 (fun _ => 0)) zeroHeap [] []).pool.pool_end) ∧
      ((8:Int) ≤ (World.mk (MemPool.mk 0 0 1000 1200 (fun _ => 0)) zeroHeap [] []).pool.pool_end - (World.mk (MemPool.mk 0 0 1000 1200 (fun _ => 0)) zeroHeap [] []).pool.pool_start →
        (World.mk (MemPool.mk 0 0 1000 1200 (fun _ => 0)) zeroHeap [] []).pool.pool_end - (World.mk (MemPool.mk 0 0 1000 1200 (fun _ => 0)) zeroHeap [] []).pool.pool_start < 8 * 20 →
        (20:Int) = ((World.mk (MemPool.mk 0 0 1000 1200 (fun _ => 0)) zeroHeap [] []).pool.pool_end - (World.mk (MemPool.mk 0 0 1000 1200 (fun _ => 0)) zeroHeap [] []).pool.pool_start).tdiv 8)) :=
  ⟨by decide, by decide, by decide, by decide, by decide, by decide, rfl,
    sty_chunk_alloc_contract
      (World.mk (MemPool.mk 0 0 1000 1200 (fun _ => 0)) zeroHeap [] []) 8 20
      (by decide) (by decide) (by decide) (by decide) (by decide) (by decide)
      1000 20 (World.mk (MemPool.mk 0 0 1160 1200 (fun _ => 0)) zeroHeap [] [])
      rfl⟩

/-- C4: on class-sized calls the chunk allocator terminates with recursion
depth bounded by 2 (any fuel at least 2 computes the same outcome, and fuel
2 never runs out), and it never returns a null pointer. -/
theorem sty_chunk_alloc_depth_two_nonnull (w : World) (size nblocks : Int)
    (hal : size.tmod ALIGN = 0) (hpos : 0 < size) (hle : size ≤ MAX_BYTES)
    (hn : 1 ≤ nblocks) (htu : 0 ≤ w.pool.total_used)
    (hinv : w.pool.pool_start = 0 → w.pool.pool_end = 0) (fuel : Nat) :
    sty_mempool_chunk_alloc_and_fill (fuel + 2) w size nblocks =
      sty_mempool_chunk_alloc_and_fill 2 w size nblocks ∧
    sty_mempool_chunk_alloc_and_fill 2 w size nblocks ≠ .outOfFuel ∧
    (∀ p n2 w2, sty_mempool_chunk_alloc_and_fill 2 w size nblocks =
      .ok (p, n2, w2) → p ≠ 0) := by
  have hm := chunk_alloc_eq_escalation_spec w size nblocks hal hpos hle hn htu
    hinv fuel
  have hm0 := chunk_alloc_eq_escalation_spec w size nblocks hal hpos hle hn htu
    hinv 0
  rw [show (0 + 2 : Nat) = 2 from rfl] at hm0
  refine ⟨hm.trans hm0.symm, ?_, ?_⟩
  · rw [hm0]
    rcases escalation_spec_cases w size nblocks hpos hn htu hinv with
      ⟨q, m2, v2, hq, _⟩ | ⟨v2, hq, _⟩ <;> rw [hq] <;> intro h <;> cases h
  · intro p n2 w2 hok
    rw [hm0] at hok
    rcases escalation_spec_cases w size nblocks hpos hn htu hinv with
      ⟨q, m2, v2, hq, hqne, _⟩ | ⟨v2, hq, _⟩
    · rw [hq] at hok
      have : q = p := by
        simp only [CResult.ok.injEq, Prod.mk.injEq] at hok
        exact hok.1
      rw [this] at hqne
      exact hqne
    · rw [hq] at hok
      cases hok

/-- witness for C4 at a fresh pool with one successful system answer. -/
theorem sty_chunk_alloc_depth_two_nonnull_witness :
    (8:Int).tmod ALIGN = 0 ∧ (0:Int) < 8 ∧ (8:Int) ≤ MAX_BYTES ∧
    (1:Int) ≤ 20 ∧ 0 ≤ (initWorld [4096]).pool.total_used ∧
    ((initWorld [4096]).pool.pool_start = 0 →
      (initWorld [4096]).pool.pool_end = 0) ∧
    (sty_mempool_chunk_alloc_and_fill (3 + 2) (initWorld [4096]) 8 20 =
      sty_mempool_chunk_alloc_and_fill 2 (initWorld [4096]) 8 20 ∧
    sty_mempool_chunk_alloc_and_fill 2 (initWorld [4096]) 8 20 ≠ .outOfFuel ∧
    (∀ p n2 w2, sty_mempool_chunk_alloc_and_fill 2 (initWorld [4096]) 8 20 =
      .ok (p, n2, w2) → p ≠ 0)) :=
  ⟨by decide, by decide, by decide, by decide, by decide, by decide,
    sty_chunk_alloc_depth_two_nonnull (initWorld [4096]) 8 20 (by decide)
      (by decide) (by decide) (by decide) (by decide) (by decide) 3⟩

/-- promoting a zero request to one byte is definitional in the model. -/
theorem sty_alloc_promote (fuel : Nat) (mempool : MemPool) (w : World) :
    sty_mempool_alloc fuel mempool w 0 = sty_mempool_alloc fuel mempool w 1 :=
  rfl

/-- refill on a class size either returns a non-null block or exits OOM. -/
theorem refill_nonnull_or_oom (w : World) (size : Int)
    (hal : size.tmod ALIGN = 0) (hpos : 0 < size) (hle : size ≤ MAX_BYTES)
    (htu : 0 ≤ w.pool.total_used)
    (hinv : w.pool.pool_start = 0 → w.pool.pool_end = 0) (fuel : Nat) :
    (∃ p w2, sty_mempool_refill (fuel + 2) w size = .ok (p, w2) ∧ p ≠ 0) ∨
    (∃ w2, sty_mempool_refill (fuel + 2) w size =
      .exited STY_ALLOC_OOM w2) := by
  unfold sty_mempool_refill
  rw [if_pos hal]
  have hm := chunk_alloc_eq_escalation_spec w size DEFAULT_REFILL_BLOCKS hal
    hpos hle (by norm_num [DEFAULT_REFILL_BLOCKS]) htu hinv fuel
  rw [hm]
  rcases escalation_spec_cases w size DEFAULT_REFILL_BLOCKS hpos
      (by norm_num [DEFAULT_REFILL_BLOCKS]) htu hinv with
    ⟨q, m2, v2, hq, hqne, hq1, _⟩ | ⟨v2, hq, _⟩
  · rw [hq]
    simp only [CResult.bind]
    by_cases hone : m2 = 1
    · left
      refine ⟨q, v2, ?_, hqne⟩
      simp [hone]
    · left
      rw [if_neg hone]
      unfold sty_mempool_freelist_build
      rw [if_pos hal, if_pos (by omega : (0:Int) < m2 - 1)]
      simp only [CResult.bind]
      exact ⟨q, _, rfl, hqne⟩
  · rw [hq]
    right
    simp only [CResult.bind]
    exact ⟨v2, rfl⟩

/-- allocate on a positive request either returns non-null or exits OOM. -/
theorem alloc_pos_nonnull_or_oom (mempool : MemPool) (w : World) (bytes : Int)
    (hb : 1 ≤ bytes) (htu : 0 ≤ w.pool.total_used)
    (hinv : w.pool.pool_start = 0 → w.pool.pool_end = 0) (fuel : Nat) :
    (∃ p w2, sty_mempool_alloc (fuel + 2) mempool w bytes = .ok (p, w2) ∧
      p ≠ 0) ∨
    (∃ w2, sty_mempool_alloc (fuel + 2) mempool w bytes =
      .exited STY_ALLOC_OOM w2) := by
  unfold sty_mempool_alloc
  rw [if_pos (by omega : (0:Int) ≤ bytes), if_neg (by omega : ¬ bytes = 0)]
  by_cases hbig : MAX_BYTES < bytes
  · rw [if_pos hbig]
    rcases horacle : w.oracle with _ | ⟨r, rest⟩
    · right
      rw [mallocModel_nil w horacle]
      simp
    · rw [mallocModel_cons w r rest horacle]
      by_cases hr : r = 0
      · right
        subst hr
        simp
      · left
        refine ⟨r, { w with oracle := rest, calls := w.calls ++ [bytes] },
          ?_, hr⟩
        simp [hr]
  · rw [if_neg hbig]
    have hb128 : bytes ≤ 128 := by unfold MAX_BYTES at hbig; omega
    have hidxF : 0 ≤ sty_mempool_freelist_index bytes ∧
        sty_mempool_freelist_index bytes < FREELISTS := by
      unfold FREELISTS
      exact freelist_index_bounds bytes hb hb128
    by_cases hhead : w.pool.free_lists (sty_mempool_freelist_index bytes) = 0
    · have hpop : sty_mempool_freelist_popblock w.pool w.heap
          (sty_mempool_freelist_index bytes) = .ok (0, w.pool) := by
        simp [sty_mempool_freelist_popblock, hidxF, hhead]
      simp only []
      rw [hpop]
      simp only [CResult.bind, ite_true, eq_self_iff_true]
      have hru := round_up_spec bytes
      have hru0 : 0 < sty_mempool_bytes_round_up bytes := by
        rcases hru with ⟨hd, hge, hlt⟩
        omega
      have hru128 : sty_mempool_bytes_round_up bytes ≤ MAX_BYTES := by
        rcases hru with ⟨hd, hge, hlt⟩
        unfold MAX_BYTES
        omega
      have hal8 : (sty_mempool_bytes_round_up bytes).tmod ALIGN = 0 :=
        round_up_tmod bytes (by omega)
      exact refill_nonnull_or_oom w (sty_mempool_bytes_round_up bytes) hal8
        hru0 hru128 htu hinv fuel
    · have hpop : sty_mempool_freelist_popblock w.pool w.heap
          (sty_mempool_freelist_index bytes) =
          .ok (w.pool.free_lists (sty_mempool_freelist_index bytes),
            { w.pool with free_lists := Function.update w.pool.free_lists (sty_mempool_freelist_index bytes) (w.heap (w.pool.free_lists (sty_mempool_freelist_index bytes))) }) := by
        simp [sty_mempool_freelist_popblock, hidxF, hhead]
      simp only []
      rw [hpop]
      simp only [CResult.bind, hhead, ite_false, if_neg]
      left
      exact ⟨_, _, rfl, hhead⟩

/-- C1: for every pool state and request `bytes ≥ 0`, allocate either
returns a non-null pointer or exits the process with `STY_ALLOC_OOM`;
failure is never surfaced as a null return, on the small path
(pop or refill) or on the large path (system allocator). -/
theorem sty_alloc_nonnull_or_oom (mempool : MemPool) (w : World) (bytes : Int)
    (hb : 0 ≤ bytes) (htu : 0 ≤ w.pool.total_used)
    (hinv : w.pool.pool_start = 0 → w.pool.pool_end = 0) (fuel : Nat) :
    (∃ p w2, sty_mempool_alloc (fuel + 2) mempool w bytes = .ok (p, w2) ∧
      p ≠ 0) ∨
    (∃ w2, sty_mempool_alloc (fuel + 2) mempool w bytes =
      .exited STY_ALLOC_OOM w2) := by
  by_cases hz : bytes = 0
  · rw [hz, sty_alloc_promote]
    exact alloc_pos_nonnull_or_oom mempool w 1 (by norm_num) htu hinv fuel
  · exact alloc_pos_nonnull_or_oom mempool w bytes (by omega) htu hinv fuel

/-- witness for C1 at a cold allocate of 7 bytes with one system answer. -/
theorem sty_alloc_nonnull_or_oom_witness :
    (0:Int) ≤ 7 ∧ 0 ≤ (initWorld [4096]).pool.total_used ∧
    ((initWorld [4096]).pool.pool_start = 0 →
      (initWorld [4096]).pool.pool_end = 0) ∧
    ((∃ p w2, sty_mempool_alloc (0 + 2) zeroPool (initWorld [4096]) 7 =
        .ok (p, w2) ∧ p ≠ 0) ∨
    (∃ w2, sty_mempool_alloc (0 + 2) zeroPool (initWorld [4096]) 7 =
      .exited STY_ALLOC_OOM w2)) :=
  ⟨by decide, by decide, by decide,
    sty_alloc_nonnull_or_oom zeroPool (initWorld [4096]) 7 (by decide)
      (by decide) (by decide) 0⟩

set_option maxRecDepth 4000 in
/-- counterexample to C5 as stated: on a fresh pool with the system
allocator answering address 4096, allocate(7) makes one request of 320
bytes, leaves 160 reserve bytes and 19 blocks on class 0, but the returned
pointer (4096) differs from the new pool_start minus 8 (4248): the returned
block is the first of the 20 carved blocks, not the last. -/
theorem sty_cold_allocate7_counterexample :
    allocIsOk (sty_mempool_alloc 2 zeroPool (initWorld [4096]) 7) = true ∧
    (allocWorld (sty_mempool_alloc 2 zeroPool (initWorld [4096]) 7)).calls =
      [320] ∧
    (allocWorld (sty_mempool_alloc 2 zeroPool (initWorld [4096]) 7)).pool.pool_end -
      (allocWorld (sty_mempool_alloc 2 zeroPool (initWorld [4096]) 7)).pool.pool_start = 160 ∧
    chainLength (allocWorld (sty_mempool_alloc 2 zeroPool (initWorld [4096]) 7)).heap
      ((allocWorld (sty_mempool_alloc 2 zeroPool (initWorld [4096]) 7)).pool.free_lists 0) 40 = 19 ∧
    allocPtr (sty_mempool_alloc 2 zeroPool (initWorld [4096]) 7) ≠
      (allocWorld (sty_mempool_alloc 2 zeroPool (initWorld [4096]) 7)).pool.pool_start - 8 := by
  refine ⟨rfl, rfl, by decide, by decide, by decide⟩

/-- C5 amended: starting from a fresh zero-initialized pool with the system
allocator answering a positive address A, allocate(7) makes exactly one
system request, of 320 bytes; the returned pointer equals the new
pool_start - 160 (the first carved block); pool_end - pool_start == 160;
and free list 0 holds exactly 19 linked blocks. -/
theorem sty_cold_allocate7_amended (A : Int) (hA : 0 < A) (fuel : Nat) :
    ∃ w2, sty_mempool_alloc (fuel + 2) zeroPool (initWorld [A]) 7 =
        .ok (A, w2) ∧
      w2.calls = [320] ∧
      A = w2.pool.pool_start - 160 ∧
      w2.pool.pool_end - w2.pool.pool_start = 160 ∧
      w2.pool.free_lists 0 = A + 8 ∧
      chainLength w2.heap (w2.pool.free_lists 0) 40 = 19 := by
  have hAne : A ≠ 0 := ne_of_gt hA
  have hm := chunk_alloc_eq_escalation_spec (initWorld [A]) 8 20 (by decide)
    (by decide) (by decide) (by decide)
    (by norm_num [initWorld, zeroPool]) (fun _ => rfl) fuel
  have hchunk : sty_mempool_chunk_alloc_and_fill (fuel + 2) (initWorld [A]) 8 20 =
      .ok (A, 20, { pool := { total_used := 320, available := 0, pool_start := A + 160, pool_end := A + 320, free_lists := fun _ => 0 }, heap := fun _ => 0, oracle := [], calls := [320] }) := by
    rw [hm]
    norm_num [chunk_alloc_escalation_spec, chunk_salvage, oracleHead,
      oracleTail, initWorld, zeroPool, sty_mempool_bytes_round_up, ALIGN,
      MAX_BYTES, hAne]
  have halloc : sty_mempool_alloc (fuel + 2) zeroPool (initWorld [A]) 7 =
      sty_mempool_refill (fuel + 2) (initWorld [A]) 8 := rfl
  have hidx8 : sty_mempool_freelist_index 8 = 0 := by decide
  have h19 : ((20:Int) - 1).toNat = 19 := by decide
  refine ⟨{ pool := { total_used := 320, available := 0, pool_start := A + 160, pool_end := A + 320, free_lists := Function.update (fun _ => (0:Int)) 0 (A + 8) }, heap := sty_buildLinks (fun _ => 0) (A + 8) 8 19, oracle := [], calls := [320] }, ?_, rfl, by ring, by ring, ?_, ?_⟩
  · rw [halloc]
    unfold sty_mempool_refill
    rw [if_pos (by decide : (8:Int).tmod ALIGN = 0),
      show DEFAULT_REFILL_BLOCKS = (20:Int) from rfl, hchunk]
    simp only [CResult.bind]
    rw [if_neg (by norm_num : ¬ (20:Int) = 1)]
    unfold sty_mempool_freelist_build
    rw [if_pos (by decide : (8:Int).tmod ALIGN = 0),
      if_pos (by norm_num : (0:Int) < 20 - 1)]
    simp only [CResult.bind, hidx8, h19]
  · simp
  · show chainLength (sty_buildLinks (fun _ => 0) (A + 8) 8 19)
      (Function.update (fun _ => (0:Int)) 0 (A + 8) 0) 40 = 19
    rw [Function.update_same]
    exact buildLinks_chainLength 8 (by norm_num) 19 (fun _ => 0) (A + 8) 40
      (by omega) (by norm_num) (by norm_num)

/-- witness for the amended C5 at system address 4096. -/
theorem sty_cold_allocate7_amended_witness :
    (0:Int) < 4096 ∧
    (∃ w2, sty_mempool_alloc (0 + 2) zeroPool (initWorld [4096]) 7 =
        .ok (4096, w2) ∧
      w2.calls = [320] ∧
      (4096:Int) = w2.pool.pool_start - 160 ∧
      w2.pool.pool_end - w2.pool.pool_start = 160 ∧
      w2.pool.free_lists 0 = 4096 + 8 ∧
      chainLength w2.heap (w2.pool.free_lists 0) 40 = 19) :=
  ⟨by norm_num, sty_cold_allocate7_amended 4096 (by norm_num) 0⟩
